import Mathlib

/-!
Verification development for the Retrieval & Research Orchestration pipeline
(backend/vector_db/search.py, backend/agents/triage.py,
backend/agents/deep_research.py, backend/agents/gap_detection.py,
backend/api/core/constants.py).

Numeric scores are modelled as rationals.  Python dictionaries (which preserve
key insertion order and update values in place) are modelled as association
lists with unique keys where updates replace the first matching entry.
Generation-Provider interactions are modelled at the parse boundary: a
constructor per distinguishable parsed shape, plus a failure constructor that
covers transport errors and any exception raised while parsing (the code
wraps the whole interaction in one try/except).
-/

/-- Half-even ("banker's") rounding of a rational to the nearest integer,
modelling Python's rounding of `round` and string formatting. -/
def roundHalfEven (x : ℚ) : ℤ :=
  if x - ⌊x⌋ < 1/2 then ⌊x⌋
  else if 1/2 < x - ⌊x⌋ then ⌊x⌋ + 1
  else if ⌊x⌋ % 2 = 0 then ⌊x⌋ else ⌊x⌋ + 1

/-- Python `round(x, 6)`: round to 6 decimal places, half to even. -/
def rnd6 (x : ℚ) : ℚ := (roundHalfEven (x * 1000000) : ℚ) / 1000000

/-- Pad a natural number below 1000 to exactly three digits. -/
def pad3 (n : ℕ) : String :=
  if n < 10 then "00" ++ toString n else if n < 100 then "0" ++ toString n else toString n

/-- Python `f"{q:.3f}"`: fixed-point formatting with three decimals. -/
def fmt3 (q : ℚ) : String :=
  let n := (roundHalfEven (|q| * 1000)).toNat
  (if q < 0 then "-" else "") ++ toString (n / 1000) ++ "." ++ pad3 (n % 1000)

/-- A single-quote character as a string (used inside message templates). -/
def quoteStr : String := String.singleton (Char.ofNat 39)

/-- Lookup in an association list modelling a Python dict: value of the first
entry with the given key. -/
def getEntry? {β : Type} : List (String × β) → String → Option β
  | [], _ => none
  | p :: t, i => if p.1 = i then some p.2 else getEntry? t i

/-- Python `key in dict`. -/
def containsKey {β : Type} (l : List (String × β)) (i : String) : Bool :=
  (getEntry? l i).isSome

/-- Python `dict[key] = v`: replace the value of the first entry with this key
(keeping its position, as Python dicts do), else append a new entry. -/
def setKey {β : Type} : List (String × β) → String → β → List (String × β)
  | [], i, v => [(i, v)]
  | p :: t, i, v => if p.1 = i then (i, v) :: t else p :: setKey t i v

/-- Python `scores.get(doc_id, 0.0)`. -/
def getQ (s : List (String × ℚ)) (i : String) : ℚ := (getEntry? s i).getD 0

/-- A search hit: the fields of the result dictionaries produced by the search
service and consumed by the agents (`id`, `similarity_score`, `title`,
`content_preview`, `source_type`, `rank`). -/
structure Hit where
  id : String
  similarity_score : ℚ
  title : String
  content_preview : String
  source_type : String
  rank : ℕ
deriving DecidableEq, Inhabited, Repr

/-- Constant `RRF_K` from api/core/constants.py. -/
def RRF_K : ℚ := 60

/-- Constant `SEMANTIC_WEIGHT` from api/core/constants.py. -/
def SEMANTIC_WEIGHT : ℚ := 7/10

/-- Constant `FTS_WEIGHT` from api/core/constants.py. -/
def FTS_WEIGHT : ℚ := 3/10

/-- Constant `RERANK_CANDIDATE_COUNT` from api/core/constants.py. -/
def RERANK_CANDIDATE_COUNT : ℕ := 15

/-- Constant `DEEP_RESEARCH_MAX_SUB_QUERIES` from api/core/constants.py. -/
def DEEP_RESEARCH_MAX_SUB_QUERIES : ℕ := 4

/-- Constant `DEEP_RESEARCH_MAX_CONTEXT_ITEMS` from api/core/constants.py. -/
def DEEP_RESEARCH_MAX_CONTEXT_ITEMS : ℕ := 15

/-- Constant `KB_GAP_THRESHOLD` from api/core/constants.py. -/
def KB_GAP_THRESHOLD : ℚ := 85/100

/-- One pass of `reciprocal_rank_fusion` over a ranked list (search.py lines
376-385): starting at rank `r`, add `w / (k + rank)` to each hit's score and
record the hit in the `items` dict.  `keepExisting = false` models the
semantic loop (`items[doc_id] = item` unconditionally); `keepExisting = true`
models the full-text loop (`if doc_id not in items`). -/
def rrfPass (w k : ℚ) (keepExisting : Bool) :
    List Hit → ℚ → List (String × ℚ) × List (String × Hit) →
    List (String × ℚ) × List (String × Hit)
  | [], _, st => st
  | h :: t, r, (s, it) =>
      rrfPass w k keepExisting t (r + 1)
        (setKey s h.id (getQ s h.id + w / (k + r)),
         if keepExisting && containsKey it h.id then it else setKey it h.id h)

/-- The `scores` and `items` dicts of `reciprocal_rank_fusion` after both
loops (search.py lines 373-385). -/
def rrfState (semantic fts : List Hit) (k ws wf : ℚ) :
    List (String × ℚ) × List (String × Hit) :=
  rrfPass wf k true fts 1 (rrfPass ws k false semantic 1 ([], []))

/-- `reciprocal_rank_fusion` (search.py lines 362-390): build the score and
item dicts, sort the doc ids by fused score descending (Python's `sorted` is
stable over the dict's insertion order), and emit each item with its
`similarity_score` replaced by the fused score rounded to 6 decimals. -/
def reciprocal_rank_fusion (semantic fts : List Hit) (k ws wf : ℚ) : List Hit :=
  (((rrfState semantic fts k ws wf).1.map Prod.fst).mergeSort
      (fun a b => decide (getQ (rrfState semantic fts k ws wf).1 b ≤
        getQ (rrfState semantic fts k ws wf).1 a))).map
    (fun i => { (getEntry? (rrfState semantic fts k ws wf).2 i).getD default with
        similarity_score := rnd6 (getQ (rrfState semantic fts k ws wf).1 i) })

/-- The fusion-and-truncation step of `VectorSearchService.search_all`
(search.py line 346): `reciprocal_rank_fusion(semantic, fts)[:limit]` with
the default constants. -/
def search_all_fuse (semantic fts : List Hit) (limit : ℕ) : List Hit :=
  (reciprocal_rank_fusion semantic fts RRF_K SEMANTIC_WEIGHT FTS_WEIGHT).take limit

/-- Rank (1-based, offset by `r - 1`) of the first hit with the given id. -/
def idxFrom (j : String) (r : ℚ) : List Hit → Option ℚ
  | [] => none
  | h :: t => if h.id = j then some r else idxFrom j (r + 1) t

/-- One weighted RRF term: `w / (k + rank)` when the document occurs in the
list at the given rank, `0` when it does not occur. -/
def rrfTerm (w k : ℚ) : Option ℚ → ℚ
  | some r => w / (k + r)
  | none => 0

/-- The RRF score as the specification states it:
`semantic_weight/(K + rank_semantic) + lexical_weight/(K + rank_lexical)`,
a list in which the document does not appear contributing 0. -/
def fusedScore (ws wf k : ℚ) (semantic fts : List Hit) (j : String) : ℚ :=
  rrfTerm ws k (idxFrom j 1 semantic) + rrfTerm wf k (idxFrom j 1 fts)

/-- First hit carrying the given id, if any. -/
def findHit (l : List Hit) (j : String) : Option Hit :=
  l.find? (fun h => h.id = j)

lemma getEntry?_setKey {β : Type} (l : List (String × β)) (i : String) (v : β) (j : String) :
    getEntry? (setKey l i v) j = if j = i then some v else getEntry? l j := by
  induction l with
  | nil =>
      by_cases hj : j = i
      · subst hj; simp [setKey, getEntry?]
      · have hij : ¬ i = j := fun h => hj h.symm
        simp [setKey, getEntry?, hij, hj]
  | cons p t ih =>
      by_cases hp : p.1 = i
      · by_cases hj : j = i
        · subst hj; simp [setKey, hp, getEntry?]
        · have hij : ¬ i = j := fun h => hj h.symm
          have hpj : ¬ p.1 = j := fun h => hij (hp ▸ h)
          simp [setKey, hp, getEntry?, hij, hj, hpj]
      · by_cases hpj : p.1 = j
        · have hj : ¬ j = i := fun h => hp (by rw [hpj, h])
          simp [setKey, hp, getEntry?, hpj, hj]
        · simp [setKey, hp, getEntry?, hpj, ih]

lemma getQ_setKey (s : List (String × ℚ)) (i : String) (v : ℚ) (j : String) :
    getQ (setKey s i v) j = if j = i then v else getQ s j := by
  unfold getQ
  rw [getEntry?_setKey]
  by_cases hj : j = i <;> simp [hj]

lemma idxFrom_eq_none (j : String) (l : List Hit) (h : j ∉ l.map Hit.id) :
    ∀ r, idxFrom j r l = none := by
  induction l with
  | nil => intro _; rfl
  | cons a t ih =>
      intro r
      simp only [List.map_cons, List.mem_cons, not_or] at h
      have ha : ¬ a.id = j := fun he => h.1 he.symm
      simp only [idxFrom, if_neg ha]
      exact ih h.2 (r + 1)

lemma rrfPass_getQ (w k : ℚ) (b : Bool) (j : String) :
    ∀ (l : List Hit), (l.map Hit.id).Nodup →
      ∀ (r : ℚ) (s : List (String × ℚ)) (it : List (String × Hit)),
      getQ (rrfPass w k b l r (s, it)).1 j = getQ s j + rrfTerm w k (idxFrom j r l) := by
  intro l
  induction l with
  | nil => intro _ r s it; simp [rrfPass, idxFrom, rrfTerm]
  | cons h t ih =>
      intro hl r s it
      simp only [List.map_cons, List.nodup_cons] at hl
      obtain ⟨hnin, hnd⟩ := hl
      by_cases hj : h.id = j
      · subst hj
        simp only [rrfPass]
        rw [ih hnd (r + 1) _ _, getQ_setKey, idxFrom_eq_none _ _ hnin (r + 1)]
        simp [idxFrom, rrfTerm]
      · simp only [rrfPass]
        rw [ih hnd (r + 1) _ _, getQ_setKey]
        have hjh : ¬ j = h.id := fun he => hj he.symm
        simp only [if_neg hjh, idxFrom, if_neg hj]

lemma rrfPass_fst_keys (w k : ℚ) (b : Bool) (j : String) :
    ∀ (l : List Hit) (r : ℚ) (s : List (String × ℚ)) (it : List (String × Hit)),
      (getEntry? (rrfPass w k b l r (s, it)).1 j).isSome =
        ((getEntry? s j).isSome || decide (j ∈ l.map Hit.id)) := by
  intro l
  induction l with
  | nil => intro r s it; simp [rrfPass]
  | cons h t ih =>
      intro r s it
      simp only [rrfPass]
      rw [ih]
      by_cases hj : j = h.id
      · simp [getEntry?_setKey, hj]
      · have hjh : ¬ h.id = j := fun he => hj he.symm
        simp [getEntry?_setKey, hj, hjh]

lemma rrfPass_snd_overwrite (w k : ℚ) (j : String) :
    ∀ (l : List Hit), (l.map Hit.id).Nodup →
      ∀ (r : ℚ) (s : List (String × ℚ)) (it : List (String × Hit)),
      getEntry? (rrfPass w k false l r (s, it)).2 j =
        match findHit l j with
        | some h => some h
        | none => getEntry? it j := by
  intro l
  induction l with
  | nil => intro _ r s it; simp [rrfPass, findHit, List.find?]
  | cons h t ihl =>
      intro hl r s it
      simp only [List.map_cons, List.nodup_cons] at hl
      obtain ⟨hnin, hnd⟩ := hl
      by_cases hj : h.id = j
      · subst hj
        simp only [rrfPass, Bool.false_and, if_neg (by simp : ¬ (false = true))]
        rw [ihl hnd (r + 1) _ _]
        have hfind : findHit t h.id = none := by
          unfold findHit
          rw [List.find?_eq_none]
          intro x hx
          simp only [decide_eq_true_eq]
          intro hdec
          exact hnin (hdec ▸ List.mem_map_of_mem Hit.id hx)
        have hcons : findHit (h :: t) h.id = some h := by
          simp [findHit, List.find?]
        rw [hfind, hcons]
        simp [getEntry?_setKey]
      · have hjh : ¬ j = h.id := fun he => hj he.symm
        simp only [rrfPass, Bool.false_and, if_neg (by simp : ¬ (false = true))]
        rw [ihl hnd (r + 1) _ _]
        have : findHit (h :: t) j = findHit t j := by
          simp [findHit, List.find?, hj]
        rw [this]
        cases findHit t j with
        | some x => rfl
        | none => simp [getEntry?_setKey, hjh]

lemma rrfPass_snd_keep (w k : ℚ) (j : String) :
    ∀ (l : List Hit) (r : ℚ) (s : List (String × ℚ)) (it : List (String × Hit)),
      getEntry? (rrfPass w k true l r (s, it)).2 j =
        match getEntry? it j with
        | some v => some v
        | none => findHit l j := by
  intro l
  induction l with
  | nil =>
      intro r s it
      simp only [rrfPass, findHit, List.find?]
      cases getEntry? it j <;> rfl
  | cons h t ihl =>
      intro r s it
      simp only [rrfPass, Bool.true_and]
      rw [ihl (r + 1) _ _]
      by_cases hj : h.id = j
      · subst hj
        by_cases hc : containsKey it h.id
        · rw [if_pos hc]
          unfold containsKey at hc
          obtain ⟨v, hv⟩ := Option.isSome_iff_exists.mp hc
          simp [hv, findHit, List.find?]
        · rw [if_neg hc]
          unfold containsKey at hc
          have hnone : getEntry? it h.id = none := by
            cases hve : getEntry? it h.id with
            | none => rfl
            | some v => rw [hve] at hc; simp at hc
          simp [getEntry?_setKey, hnone, findHit, List.find?]
      · have hjh : ¬ j = h.id := fun he => hj he.symm
        have harm : getEntry? (if containsKey it h.id then it else setKey it h.id h) j =
            getEntry? it j := by
          by_cases hc : containsKey it h.id
          · rw [if_pos hc]
          · rw [if_neg hc, getEntry?_setKey, if_neg hjh]
        rw [harm]
        have : findHit (h :: t) j = findHit t j := by
          simp [findHit, List.find?, hj]
        rw [this]

lemma getEntry?_isSome_iff {β : Type} (l : List (String × β)) (j : String) :
    (getEntry? l j).isSome = true ↔ j ∈ l.map Prod.fst := by
  induction l with
  | nil => simp [getEntry?]
  | cons p t ih =>
      by_cases hp : p.1 = j
      · simp [getEntry?, hp]
      · have : ¬ j = p.1 := fun he => hp he.symm
        simp [getEntry?, hp, ih, this]

lemma findHit_id {l : List Hit} {j : String} {h : Hit} (he : findHit l j = some h) :
    h.id = j := by
  have := List.find?_some he
  simpa using this

lemma findHit_mem {l : List Hit} {j : String} {h : Hit} (he : findHit l j = some h) :
    h ∈ l :=
  List.mem_of_find?_eq_some he

lemma findHit_isSome {l : List Hit} {j : String} (h : j ∈ l.map Hit.id) :
    ∃ x, findHit l j = some x := by
  rw [List.mem_map] at h
  obtain ⟨x, hx, hxe⟩ := h
  have : (findHit l j).isSome := by
    unfold findHit
    rw [List.find?_isSome]
    exact ⟨x, hx, by simp [hxe]⟩
  exact Option.isSome_iff_exists.mp this

lemma rrfState_getQ (semantic fts : List Hit) (k ws wf : ℚ)
    (hs : (semantic.map Hit.id).Nodup) (hf : (fts.map Hit.id).Nodup) (j : String) :
    getQ (rrfState semantic fts k ws wf).1 j = fusedScore ws wf k semantic fts j := by
  have h1 := rrfPass_getQ ws k false j semantic hs 1 [] []
  have h2 : getQ (rrfState semantic fts k ws wf).1 j
      = getQ (rrfPass ws k false semantic 1 ([], [])).1 j + rrfTerm wf k (idxFrom j 1 fts) :=
    rrfPass_getQ wf k true j fts hf 1 _ _
  rw [h2, h1]
  simp only [getQ, getEntry?, Option.getD_none, fusedScore]
  ring

lemma rrfState_key_iff (semantic fts : List Hit) (k ws wf : ℚ) (j : String) :
    (getEntry? (rrfState semantic fts k ws wf).1 j).isSome = true ↔
      (j ∈ semantic.map Hit.id ∨ j ∈ fts.map Hit.id) := by
  have h2 : (getEntry? (rrfState semantic fts k ws wf).1 j).isSome
      = ((getEntry? (rrfPass ws k false semantic 1 ([], [])).1 j).isSome
          || decide (j ∈ fts.map Hit.id)) :=
    rrfPass_fst_keys wf k true j fts 1 _ _
  have h1 : (getEntry? (rrfPass ws k false semantic 1 ([], [])).1 j).isSome
      = ((getEntry? ([] : List (String × ℚ)) j).isSome || decide (j ∈ semantic.map Hit.id)) :=
    rrfPass_fst_keys ws k false j semantic 1 _ _
  rw [h2, h1]
  simp [getEntry?]

lemma rrfState_snd (semantic fts : List Hit) (k ws wf : ℚ)
    (hs : (semantic.map Hit.id).Nodup) (j : String) :
    getEntry? (rrfState semantic fts k ws wf).2 j =
      match findHit semantic j with
      | some h => some h
      | none => findHit fts j := by
  have h2 : getEntry? (rrfState semantic fts k ws wf).2 j =
      match getEntry? (rrfPass ws k false semantic 1 ([], [])).2 j with
      | some v => some v
      | none => findHit fts j :=
    rrfPass_snd_keep wf k j fts 1 _ _
  have h1 : getEntry? (rrfPass ws k false semantic 1 ([], [])).2 j =
      match findHit semantic j with
      | some h => some h
      | none => getEntry? ([] : List (String × Hit)) j :=
    rrfPass_snd_overwrite ws k j semantic hs 1 _ _
  rw [h2, h1]
  cases findHit semantic j with
  | some h => rfl
  | none => simp [getEntry?]

lemma roundHalfEven_bounds (x : ℚ) : ⌊x⌋ ≤ roundHalfEven x ∧ roundHalfEven x ≤ ⌊x⌋ + 1 := by
  unfold roundHalfEven
  split_ifs <;> constructor <;> omega

lemma roundHalfEven_mono {x y : ℚ} (h : x ≤ y) : roundHalfEven x ≤ roundHalfEven y := by
  have hfl : ⌊x⌋ ≤ ⌊y⌋ := Int.floor_le_floor h
  rcases eq_or_lt_of_le hfl with heq | hlt
  · unfold roundHalfEven
    rw [← heq]
    split_ifs <;> first | omega | linarith
  · have hx2 := (roundHalfEven_bounds x).2
    have hy1 := (roundHalfEven_bounds y).1
    omega

lemma rnd6_mono {x y : ℚ} (h : x ≤ y) : rnd6 x ≤ rnd6 y := by
  unfold rnd6
  have hm := roundHalfEven_mono (mul_le_mul_of_nonneg_right h (by norm_num : (0:ℚ) ≤ 1000000))
  have hc : ((roundHalfEven (x * 1000000) : ℤ) : ℚ) ≤ ((roundHalfEven (y * 1000000) : ℤ) : ℚ) := by
    exact_mod_cast hm
  linarith

lemma reciprocal_rank_fusion_sorted (semantic fts : List Hit) (k ws wf : ℚ) :
    (reciprocal_rank_fusion semantic fts k ws wf).Pairwise
      (fun a b => b.similarity_score ≤ a.similarity_score) := by
  unfold reciprocal_rank_fusion
  rw [List.pairwise_map]
  have hpw : List.Pairwise
      (fun a b => (fun a b : String =>
          decide (getQ (rrfState semantic fts k ws wf).1 b ≤ getQ (rrfState semantic fts k ws wf).1 a)) a b = true)
      (((rrfState semantic fts k ws wf).1.map Prod.fst).mergeSort
        (fun a b => decide (getQ (rrfState semantic fts k ws wf).1 b ≤ getQ (rrfState semantic fts k ws wf).1 a))) :=
    List.sorted_mergeSort
      (by intro a b c hab hbc
          simp only [decide_eq_true_eq] at hab hbc ⊢
          exact le_trans hbc hab)
      (by intro a b
          simpa using le_total (getQ (rrfState semantic fts k ws wf).1 b) (getQ (rrfState semantic fts k ws wf).1 a))
      _
  exact hpw.imp (fun hab => by
    simp only [decide_eq_true_eq] at hab
    exact rnd6_mono hab)

lemma rrf_out_key (semantic fts : List Hit) (k ws wf : ℚ)
    (hs : (semantic.map Hit.id).Nodup) :
    ∀ i ∈ (rrfState semantic fts k ws wf).1.map Prod.fst,
      ∃ x, getEntry? (rrfState semantic fts k ws wf).2 i = some x ∧ x.id = i := by
  intro i hi
  have hsome : (getEntry? (rrfState semantic fts k ws wf).1 i).isSome = true :=
    (getEntry?_isSome_iff _ _).mpr hi
  have hmem := (rrfState_key_iff semantic fts k ws wf i).mp hsome
  cases hse : findHit semantic i with
  | some x =>
      refine ⟨x, ?_, findHit_id hse⟩
      rw [rrfState_snd semantic fts k ws wf hs i, hse]
  | none =>
      have hmf : i ∈ fts.map Hit.id := by
        rcases hmem with hm | hm
        · obtain ⟨x, hx⟩ := findHit_isSome hm
          rw [hse] at hx
          exact absurd hx (by simp)
        · exact hm
      obtain ⟨x, hx⟩ := findHit_isSome hmf
      refine ⟨x, ?_, findHit_id hx⟩
      rw [rrfState_snd semantic fts k ws wf hs i, hse, hx]

lemma rrf_out_char (semantic fts : List Hit) (k ws wf : ℚ)
    (hs : (semantic.map Hit.id).Nodup) :
    ∀ g ∈ reciprocal_rank_fusion semantic fts k ws wf,
      ∃ x, getEntry? (rrfState semantic fts k ws wf).2 g.id = some x ∧ x.id = g.id ∧
        g = { x with similarity_score := rnd6 (getQ (rrfState semantic fts k ws wf).1 g.id) } := by
  intro g hg
  unfold reciprocal_rank_fusion at hg
  rw [List.mem_map] at hg
  obtain ⟨i, hi, hgi⟩ := hg
  rw [List.mem_mergeSort] at hi
  obtain ⟨x, hx, hxid⟩ := rrf_out_key semantic fts k ws wf hs i hi
  have hgid : g.id = i := by
    rw [← hgi]
    simp [hx, hxid]
  refine ⟨x, by rw [hgid]; exact hx, by rw [hgid]; exact hxid, ?_⟩
  rw [← hgi]
  simp [hx, hxid]

lemma rrf_mem_of_key (semantic fts : List Hit) (k ws wf : ℚ)
    (hs : (semantic.map Hit.id).Nodup) (d : String)
    (hd : d ∈ semantic.map Hit.id ∨ d ∈ fts.map Hit.id) :
    ∃ g ∈ reciprocal_rank_fusion semantic fts k ws wf, g.id = d := by
  have hsome : (getEntry? (rrfState semantic fts k ws wf).1 d).isSome = true :=
    (rrfState_key_iff semantic fts k ws wf d).mpr hd
  have hkey : d ∈ (rrfState semantic fts k ws wf).1.map Prod.fst :=
    (getEntry?_isSome_iff _ _).mp hsome
  have hms : d ∈ ((rrfState semantic fts k ws wf).1.map Prod.fst).mergeSort
      (fun a b => decide (getQ (rrfState semantic fts k ws wf).1 b ≤
        getQ (rrfState semantic fts k ws wf).1 a)) :=
    List.mem_mergeSort.mpr hkey
  obtain ⟨x, hx, hxid⟩ := rrf_out_key semantic fts k ws wf hs d hkey
  refine ⟨{ x with similarity_score := rnd6 (getQ (rrfState semantic fts k ws wf).1 d) }, ?_, hxid⟩
  unfold reciprocal_rank_fusion
  rw [List.mem_map]
  exact ⟨d, hms, by simp [hx]⟩

/-- C1: hybrid RRF fusion assigns each document the score
`semantic_weight/(K + rank_semantic) + lexical_weight/(K + rank_lexical)`
(a list in which the document does not appear contributing 0), with defaults
`semantic_weight = 0.7`, `lexical_weight = 0.3`, `K = 60`; a document ranked
first in both lists receives fused score exactly `0.7/61 + 0.3/61 = 1/61`;
the fused score is monotonically non-increasing as either rank worsens; and
the output of the search pipeline is sorted by fused score descending and
truncated to the limit. -/
theorem C1_rrf_fusion (semantic fts : List Hit) (limit : ℕ)
    (hs : (semantic.map Hit.id).Nodup) (hf : (fts.map Hit.id).Nodup) :
    (∀ j : String,
        getQ (rrfState semantic fts RRF_K SEMANTIC_WEIGHT FTS_WEIGHT).1 j =
          fusedScore SEMANTIC_WEIGHT FTS_WEIGHT RRF_K semantic fts j)
    ∧ SEMANTIC_WEIGHT = 7/10 ∧ FTS_WEIGHT = 3/10 ∧ RRF_K = 60
    ∧ (∀ d : String, idxFrom d 1 semantic = some 1 → idxFrom d 1 fts = some 1 →
        fusedScore SEMANTIC_WEIGHT FTS_WEIGHT RRF_K semantic fts d = 1/61)
    ∧ (∀ r₁ r₂ r₃ r₄ : ℚ, 1 ≤ r₁ → 1 ≤ r₂ → r₁ ≤ r₃ → r₂ ≤ r₄ →
        rrfTerm SEMANTIC_WEIGHT RRF_K (some r₃) + rrfTerm FTS_WEIGHT RRF_K (some r₄)
          ≤ rrfTerm SEMANTIC_WEIGHT RRF_K (some r₁) + rrfTerm FTS_WEIGHT RRF_K (some r₂))
    ∧ (reciprocal_rank_fusion semantic fts RRF_K SEMANTIC_WEIGHT FTS_WEIGHT).Pairwise
        (fun a b => b.similarity_score ≤ a.similarity_score)
    ∧ search_all_fuse semantic fts limit
        = (reciprocal_rank_fusion semantic fts RRF_K SEMANTIC_WEIGHT FTS_WEIGHT).take limit
    ∧ (search_all_fuse semantic fts limit).length ≤ limit := by
  refine ⟨fun j => rrfState_getQ semantic fts RRF_K SEMANTIC_WEIGHT FTS_WEIGHT hs hf j,
    rfl, rfl, rfl, ?_, ?_, reciprocal_rank_fusion_sorted semantic fts RRF_K SEMANTIC_WEIGHT FTS_WEIGHT,
    rfl, ?_⟩
  · intro d h1 h2
    unfold fusedScore
    rw [h1, h2]
    norm_num [rrfTerm, SEMANTIC_WEIGHT, FTS_WEIGHT, RRF_K]
  · intro r₁ r₂ r₃ r₄ h1 h2 h13 h24
    have ha : rrfTerm SEMANTIC_WEIGHT RRF_K (some r₃) ≤ rrfTerm SEMANTIC_WEIGHT RRF_K (some r₁) := by
      simp only [rrfTerm, SEMANTIC_WEIGHT, RRF_K]
      apply div_le_div_of_nonneg_left (by norm_num) (by linarith) (by linarith)
    have hb : rrfTerm FTS_WEIGHT RRF_K (some r₄) ≤ rrfTerm FTS_WEIGHT RRF_K (some r₂) := by
      simp only [rrfTerm, FTS_WEIGHT, RRF_K]
      apply div_le_div_of_nonneg_left (by norm_num) (by linarith) (by linarith)
    linarith
  · unfold search_all_fuse
    rw [List.length_take]
    exact min_le_left _ _

/-- Fixture hit for concrete witnesses: semantic hit with id A. -/
def witA : Hit := { id := "A", similarity_score := 9/10, title := "tA", content_preview := "pA", source_type := "KB", rank := 1 }

/-- Fixture hit for concrete witnesses: semantic hit with id B. -/
def witB : Hit := { id := "B", similarity_score := 8/10, title := "tB", content_preview := "pB", source_type := "SCRIPT", rank := 2 }

/-- Fixture hit for concrete witnesses: lexical hit with id A (distinct fields). -/
def witA2 : Hit := { id := "A", similarity_score := 5/10, title := "tAf", content_preview := "pAf", source_type := "KB", rank := 1 }

/-- Fixture hit for concrete witnesses: lexical hit with id C. -/
def witC : Hit := { id := "C", similarity_score := 4/10, title := "tC", content_preview := "pC", source_type := "KB", rank := 2 }

/-- Witness for C1 at a concrete pair of ranked lists. -/
theorem C1_rrf_fusion_witness :
    fusedScore SEMANTIC_WEIGHT FTS_WEIGHT RRF_K [witA, witB] [witA2, witC] "A" = 1/61
    ∧ (search_all_fuse [witA, witB] [witA2, witC] 2).length ≤ 2 := by
  have h := C1_rrf_fusion [witA, witB] [witA2, witC] 2 (by decide) (by decide)
  exact ⟨h.2.2.2.2.1 "A" (by decide) (by decide), h.2.2.2.2.2.2.2.2⟩

/-- C10: in reciprocal rank fusion, for a document id appearing in both input
lists the returned hit keeps every field of the semantic entry except
`similarity_score` (the lexical entry's fields are ignored), and every
returned hit's `similarity_score` is overwritten with the fused RRF score
rounded to 6 decimal places, so the stage score carried on input is not
preserved. -/
theorem C10_rrf_field_provenance (semantic fts : List Hit)
    (hs : (semantic.map Hit.id).Nodup) (hf : (fts.map Hit.id).Nodup)
    (d : String) (h : Hit)
    (hsem : findHit semantic d = some h) (hfts : d ∈ fts.map Hit.id) :
    (∃ g ∈ reciprocal_rank_fusion semantic fts RRF_K SEMANTIC_WEIGHT FTS_WEIGHT, g.id = d)
    ∧ (∀ g ∈ reciprocal_rank_fusion semantic fts RRF_K SEMANTIC_WEIGHT FTS_WEIGHT, g.id = d →
        g = { h with similarity_score := rnd6 (fusedScore SEMANTIC_WEIGHT FTS_WEIGHT RRF_K semantic fts d) })
    ∧ (∀ g ∈ reciprocal_rank_fusion semantic fts RRF_K SEMANTIC_WEIGHT FTS_WEIGHT,
        g.similarity_score = rnd6 (fusedScore SEMANTIC_WEIGHT FTS_WEIGHT RRF_K semantic fts g.id)) := by
  have hdsem : d ∈ semantic.map Hit.id := by
    have hm := findHit_mem hsem
    have hid := findHit_id hsem
    exact hid ▸ List.mem_map_of_mem Hit.id hm
  refine ⟨rrf_mem_of_key semantic fts RRF_K SEMANTIC_WEIGHT FTS_WEIGHT hs d (Or.inl hdsem), ?_, ?_⟩
  · intro g hg hgd
    obtain ⟨x, hx, hxid, hgx⟩ := rrf_out_char semantic fts RRF_K SEMANTIC_WEIGHT FTS_WEIGHT hs g hg
    rw [hgd] at hx
    rw [rrfState_snd semantic fts RRF_K SEMANTIC_WEIGHT FTS_WEIGHT hs d, hsem] at hx
    have hxh : x = h := by
      injection hx with hx'
      exact hx'.symm
    rw [hgx, hgd, hxh, rrfState_getQ semantic fts RRF_K SEMANTIC_WEIGHT FTS_WEIGHT hs hf d]
  · intro g hg
    obtain ⟨x, hx, hxid, hgx⟩ := rrf_out_char semantic fts RRF_K SEMANTIC_WEIGHT FTS_WEIGHT hs g hg
    rw [hgx]
    simp only [rrfState_getQ semantic fts RRF_K SEMANTIC_WEIGHT FTS_WEIGHT hs hf]
    rw [hxid]

/-- Witness for C10 at a concrete pair of ranked lists: id A appears in both
input lists and in the fused output. -/
theorem C10_rrf_field_provenance_witness :
    ((reciprocal_rank_fusion [witA, witB] [witA2, witC] RRF_K SEMANTIC_WEIGHT
        FTS_WEIGHT).map Hit.id).contains "A" = true := by
  obtain ⟨g, hg, hgid⟩ :=
    (C10_rrf_field_provenance [witA, witB] [witA2, witC] (by decide) (by decide) "A" witA
      (by rfl) (by decide)).1
  have hmem : "A" ∈ (reciprocal_rank_fusion [witA, witB] [witA2, witC] RRF_K SEMANTIC_WEIGHT
      FTS_WEIGHT).map Hit.id := hgid ▸ List.mem_map_of_mem Hit.id hg
  simpa using hmem

/-- Outcome of the reranking Generation-Provider interaction after fence
stripping and `json.loads` (triage.py lines 158-168): `fail` covers a
transport error or a JSON parse error (the whole block is wrapped in
try/except), `notList` a parsed JSON value that is not a list, and `ids`
a parsed JSON array (an element that is not a present candidate id simply
matches nothing, exactly as in the code). -/
inductive RerankLLM where
  | fail
  | notList
  | ids (l : List String)

/-- Python `id_to_candidate.pop(doc_id)` guarded by `doc_id in id_to_candidate`
(triage.py lines 173-175): the popped value, if any, and the dict without
that entry. -/
def popA (i : String) : List (String × Hit) → Option Hit × List (String × Hit)
  | [] => (none, [])
  | p :: t =>
      if p.1 = i then (some p.2, t)
      else ((popA i t).1, p :: (popA i t).2)

/-- The loop `for doc_id in ranked_ids: if doc_id in id_to_candidate:
reranked.append(id_to_candidate.pop(doc_id))` (triage.py lines 172-175). -/
def pickPhase : List String → List (String × Hit) → List Hit × List (String × Hit)
  | [], rem => ([], rem)
  | i :: t, rem =>
      match (popA i rem).1 with
      | some c => (c :: (pickPhase t (popA i rem).2).1, (pickPhase t (popA i rem).2).2)
      | none => pickPhase t rem

/-- Python `enumerate(reranked + remainder, start=n)` assigning `item["rank"]`. -/
def renumberFrom (n : ℕ) : List Hit → List Hit
  | [] => []
  | h :: t => { h with rank := n } :: renumberFrom (n + 1) t

/-- Rank re-numbering 1..total (triage.py lines 183-184). -/
def renumber (l : List Hit) : List Hit := renumberFrom 1 l

/-- Python `{c["id"]: c for c in to_rerank}` (triage.py line 171). -/
def toAssoc (l : List Hit) : List (String × Hit) := l.map (fun c => (c.id, c))

/-- The rebuilt head of `TriageAgent._rerank` for a parsed id list: candidates
picked in the provider's order followed by the candidates the provider missed,
in their original order (triage.py lines 170-180). -/
def rerankHead (cands : List Hit) (l : List String) : List Hit :=
  (pickPhase l (toAssoc (cands.take RERANK_CANDIDATE_COUNT))).1
    ++ (cands.take RERANK_CANDIDATE_COUNT).filter
        (fun c => containsKey (pickPhase l (toAssoc (cands.take RERANK_CANDIDATE_COUNT))).2 c.id)

/-- `TriageAgent._rerank` (triage.py lines 136-190): on failure or a non-list
response the input is returned unchanged; otherwise only the first
`RERANK_CANDIDATE_COUNT` candidates are reordered, the remainder is appended
untouched, and ranks are renumbered 1..total. -/
def rerank (cands : List Hit) (r : RerankLLM) : List Hit :=
  match r with
  | .fail => cands
  | .notList => cands
  | .ids l => renumber (rerankHead cands l ++ cands.drop RERANK_CANDIDATE_COUNT)

lemma popA_fst_none (i : String) :
    ∀ rem : List (String × Hit), (popA i rem).1 = none →
      (popA i rem).2 = rem ∧ getEntry? rem i = none := by
  intro rem
  induction rem with
  | nil => intro _; exact ⟨rfl, rfl⟩
  | cons p t ih =>
      intro hn
      by_cases hp : p.1 = i
      · simp [popA, hp] at hn
      · simp only [popA, if_neg hp] at hn ⊢
        obtain ⟨h1, h2⟩ := ih hn
        exact ⟨by rw [h1], by simp [getEntry?, hp, h2]⟩

lemma popA_perm (i : String) {c : Hit} :
    ∀ rem : List (String × Hit), (popA i rem).1 = some c →
      (rem.map Prod.snd).Perm (c :: (popA i rem).2.map Prod.snd) := by
  intro rem
  induction rem with
  | nil => intro h; simp [popA] at h
  | cons p t ih =>
      intro hs
      by_cases hp : p.1 = i
      · simp only [popA, if_pos hp] at hs ⊢
        injection hs with hs
        simp only [List.map_cons, hs]
        exact List.Perm.refl _
      · simp only [popA, if_neg hp] at hs ⊢
        simp only [List.map_cons]
        exact ((ih hs).cons p.2).trans (List.Perm.swap c p.2 _)

lemma popA_sublist (i : String) :
    ∀ rem : List (String × Hit), List.Sublist (popA i rem).2 rem := by
  intro rem
  induction rem with
  | nil => simp [popA]
  | cons p t ih =>
      by_cases hp : p.1 = i
      · simp only [popA, if_pos hp]
        exact List.sublist_cons_self p t
      · simp only [popA, if_neg hp]
        exact List.Sublist.cons₂ p ih

lemma popA_snd_getEntry (i : String) {c : Hit} :
    ∀ rem : List (String × Hit), (rem.map Prod.fst).Nodup → (popA i rem).1 = some c →
      ∀ j, getEntry? (popA i rem).2 j = if j = i then none else getEntry? rem j := by
  intro rem
  induction rem with
  | nil => intro _ h; simp [popA] at h
  | cons p t ih =>
      intro hnd hs j
      simp only [List.map_cons, List.nodup_cons] at hnd
      by_cases hp : p.1 = i
      · simp only [popA, if_pos hp] at hs ⊢
        by_cases hj : j = i
        · rw [if_pos hj]
          cases hg : getEntry? t j with
          | none => rfl
          | some v =>
              exfalso
              have hmem : j ∈ t.map Prod.fst :=
                (getEntry?_isSome_iff t j).mp (by rw [hg]; rfl)
              exact hnd.1 ((hp.trans hj.symm).symm ▸ hmem)
        · have hpj : ¬ p.1 = j := fun he => hj (by rw [← he, hp])
          rw [if_neg hj]
          simp [getEntry?, hpj]
      · simp only [popA, if_neg hp] at hs ⊢
        by_cases hj : j = i
        · rw [if_pos hj]
          have hpj : ¬ p.1 = j := fun he => hp (he.trans hj)
          have hrec := ih hnd.2 hs j
          rw [if_pos hj] at hrec
          simp [getEntry?, hpj, hrec]
        · rw [if_neg hj]
          have hrec := ih hnd.2 hs j
          rw [if_neg hj] at hrec
          by_cases hpj : p.1 = j
          · simp [getEntry?, hpj]
          · simp [getEntry?, hpj, hrec]

lemma pickPhase_perm (l : List String) :
    ∀ rem : List (String × Hit),
      ((pickPhase l rem).1 ++ (pickPhase l rem).2.map Prod.snd).Perm (rem.map Prod.snd) := by
  induction l with
  | nil => intro rem; simp [pickPhase]
  | cons i t ih =>
      intro rem
      cases hpop : (popA i rem).1 with
      | some c =>
          simp only [pickPhase, hpop]
          have h1 := ih (popA i rem).2
          have h2 := popA_perm i rem hpop
          exact (List.Perm.cons c h1).trans h2.symm
      | none =>
          simp only [pickPhase, hpop]
          exact ih rem

lemma pickPhase_sublist (l : List String) :
    ∀ rem : List (String × Hit), List.Sublist (pickPhase l rem).2 rem := by
  induction l with
  | nil => intro rem; simp [pickPhase]
  | cons i t ih =>
      intro rem
      cases hpop : (popA i rem).1 with
      | some c =>
          simp only [pickPhase, hpop]
          exact (ih (popA i rem).2).trans (popA_sublist i rem)
      | none =>
          simp only [pickPhase, hpop]
          exact ih rem

lemma pickPhase_snd_getEntry (l : List String) :
    ∀ rem : List (String × Hit), (rem.map Prod.fst).Nodup →
      ∀ j, getEntry? (pickPhase l rem).2 j =
        if j ∈ l then none else getEntry? rem j := by
  induction l with
  | nil => intro rem _ j; simp [pickPhase]
  | cons i t ih =>
      intro rem hnd j
      cases hpop : (popA i rem).1 with
      | some c =>
          simp only [pickPhase, hpop]
          have hnd2 : ((popA i rem).2.map Prod.fst).Nodup :=
            ((popA_sublist i rem).map Prod.fst).nodup hnd
          rw [ih (popA i rem).2 hnd2 j, popA_snd_getEntry i rem hnd hpop j]
          by_cases hjt : j ∈ t
          · simp [hjt]
          · by_cases hji : j = i
            · simp [hjt, hji]
            · simp [hjt, hji]
      | none =>
          simp only [pickPhase, hpop]
          obtain ⟨-, hnone⟩ := popA_fst_none i rem hpop
          rw [ih rem hnd j]
          by_cases hjt : j ∈ t
          · simp [hjt]
          · by_cases hji : j = i
            · subst hji
              simp [hjt, hnone]
            · simp [hjt, hji]

lemma filter_containsKey_of_sublist {l₁ l₂ : List (String × Hit)} (hsub : List.Sublist l₁ l₂) :
    (l₂.map Prod.fst).Nodup → l₂.filter (fun p => containsKey l₁ p.1) = l₁ := by
  induction hsub with
  | slnil => intro _; rfl
  | @cons m₁ m₂ a hsub ih =>
      intro hnd
      simp only [List.map_cons, List.nodup_cons] at hnd
      have hnc : containsKey m₁ a.1 = false := by
        unfold containsKey
        cases hg : getEntry? m₁ a.1 with
        | none => rfl
        | some v =>
            exfalso
            have hmem : a.1 ∈ m₁.map Prod.fst :=
              (getEntry?_isSome_iff _ _).mp (by rw [hg]; rfl)
            exact hnd.1 ((hsub.map Prod.fst).subset hmem)
      rw [List.filter_cons, hnc]
      simpa using ih hnd.2
  | @cons₂ m₁ m₂ a hsub ih =>
      intro hnd
      simp only [List.map_cons, List.nodup_cons] at hnd
      have hca : containsKey (a :: m₁) a.1 = true := by
        simp [containsKey, getEntry?]
      rw [List.filter_cons, hca, if_pos rfl]
      congr 1
      have hcong : ∀ p ∈ m₂, (containsKey (a :: m₁) p.1) = containsKey m₁ p.1 := by
        intro p hp
        have hne : ¬ a.1 = p.1 := fun he => hnd.1 (he ▸ List.mem_map_of_mem Prod.fst hp)
        simp [containsKey, getEntry?, hne]
      rw [List.filter_congr hcong]
      exact ih hnd.2

lemma renumberFrom_length (n : ℕ) (l : List Hit) :
    (renumberFrom n l).length = l.length := by
  induction l generalizing n with
  | nil => rfl
  | cons h t ih => simp [renumberFrom, ih]

lemma renumberFrom_map_id (n : ℕ) (l : List Hit) :
    (renumberFrom n l).map Hit.id = l.map Hit.id := by
  induction l generalizing n with
  | nil => rfl
  | cons h t ih => simp [renumberFrom, ih]

lemma renumberFrom_rank (l : List Hit) :
    ∀ (n i : ℕ) (hi : i < (renumberFrom n l).length),
      ((renumberFrom n l).get ⟨i, hi⟩).rank = n + i := by
  induction l with
  | nil => intro n i hi; simp [renumberFrom] at hi
  | cons h t ih =>
      intro n i hi
      cases i with
      | zero => simp [renumberFrom]
      | succ m =>
          have hm : m < (renumberFrom (n + 1) t).length := by
            simp only [renumberFrom, List.length_cons] at hi
            omega
          have := ih (n + 1) m hm
          simp only [renumberFrom, List.get_cons_succ]
          rw [this]
          omega

lemma rerankHead_facts (cands : List Hit) (hnd : (cands.map Hit.id).Nodup) (l : List String) :
    (rerankHead cands l).Perm (cands.take RERANK_CANDIDATE_COUNT)
    ∧ rerankHead cands l =
        (pickPhase l (toAssoc (cands.take RERANK_CANDIDATE_COUNT))).1
          ++ (cands.take RERANK_CANDIDATE_COUNT).filter (fun c => decide (c.id ∉ l)) := by
  have htrnd : ((cands.take RERANK_CANDIDATE_COUNT).map Hit.id).Nodup := by
    rw [List.map_take]
    exact hnd.sublist (List.take_sublist _ _)
  have hkeys : (toAssoc (cands.take RERANK_CANDIDATE_COUNT)).map Prod.fst
      = (cands.take RERANK_CANDIDATE_COUNT).map Hit.id := by
    unfold toAssoc
    rw [List.map_map]
    rfl
  have hkeysnd : ((toAssoc (cands.take RERANK_CANDIDATE_COUNT)).map Prod.fst).Nodup :=
    hkeys ▸ htrnd
  have hvals : (toAssoc (cands.take RERANK_CANDIDATE_COUNT)).map Prod.snd
      = cands.take RERANK_CANDIDATE_COUNT := by
    unfold toAssoc
    rw [List.map_map, show (Prod.snd ∘ fun c : Hit => (c.id, c)) = id from rfl, List.map_id]
  have hfilter_rec : (toAssoc (cands.take RERANK_CANDIDATE_COUNT)).filter
        (fun p => containsKey (pickPhase l (toAssoc (cands.take RERANK_CANDIDATE_COUNT))).2 p.1)
      = (pickPhase l (toAssoc (cands.take RERANK_CANDIDATE_COUNT))).2 :=
    filter_containsKey_of_sublist (pickPhase_sublist l _) hkeysnd
  have h1 : (toAssoc (cands.take RERANK_CANDIDATE_COUNT)).filter
        (fun p => containsKey (pickPhase l (toAssoc (cands.take RERANK_CANDIDATE_COUNT))).2 p.1)
      = ((cands.take RERANK_CANDIDATE_COUNT).filter
          (fun c => containsKey (pickPhase l (toAssoc (cands.take RERANK_CANDIDATE_COUNT))).2 c.id)).map
            (fun c => (c.id, c)) := by
    unfold toAssoc
    rw [List.filter_map]
    rfl
  have hmissed : (cands.take RERANK_CANDIDATE_COUNT).filter
        (fun c => containsKey (pickPhase l (toAssoc (cands.take RERANK_CANDIDATE_COUNT))).2 c.id)
      = (pickPhase l (toAssoc (cands.take RERANK_CANDIDATE_COUNT))).2.map Prod.snd := by
    have h2 := congrArg (List.map Prod.snd) (h1.symm.trans hfilter_rec)
    rw [List.map_map, show (Prod.snd ∘ fun c : Hit => (c.id, c)) = id from rfl, List.map_id] at h2
    exact h2
  have hperm : ((pickPhase l (toAssoc (cands.take RERANK_CANDIDATE_COUNT))).1
        ++ (pickPhase l (toAssoc (cands.take RERANK_CANDIDATE_COUNT))).2.map Prod.snd).Perm
      (cands.take RERANK_CANDIDATE_COUNT) := by
    have h := pickPhase_perm l (toAssoc (cands.take RERANK_CANDIDATE_COUNT))
    rw [hvals] at h
    exact h
  have hpoint : ∀ c ∈ cands.take RERANK_CANDIDATE_COUNT,
      containsKey (pickPhase l (toAssoc (cands.take RERANK_CANDIDATE_COUNT))).2 c.id
        = decide (c.id ∉ l) := by
    intro c hc
    have hsome : (getEntry? (toAssoc (cands.take RERANK_CANDIDATE_COUNT)) c.id).isSome = true := by
      rw [getEntry?_isSome_iff, hkeys]
      exact List.mem_map_of_mem Hit.id hc
    unfold containsKey
    rw [pickPhase_snd_getEntry l _ hkeysnd c.id]
    by_cases hcl : c.id ∈ l
    · simp [hcl]
    · simp only [if_neg hcl]
      rw [hsome]
      simp [hcl]
  constructor
  · unfold rerankHead
    rw [hmissed]
    exact hperm
  · unfold rerankHead
    congr 1
    exact List.filter_congr hpoint

/-- C2: the reranker preserves the candidate id-set exactly under any
provider response (no drops, no duplicates); on any failure or non-list
response the input is returned unchanged; on a parsed id list only the first
`RERANK_CANDIDATE_COUNT` (15) candidates are reordered — the head is a
permutation of the first 15 and the remainder keeps its relative positions
after the head; candidate ids the provider omits are appended preserving
their original relative order; and ranks are renumbered 1..total over the
full list. -/
theorem C2_rerank (cands : List Hit) (hnd : (cands.map Hit.id).Nodup) :
    (∀ r : RerankLLM, ((rerank cands r).map Hit.id).Perm (cands.map Hit.id))
    ∧ rerank cands RerankLLM.fail = cands
    ∧ rerank cands RerankLLM.notList = cands
    ∧ (∀ l : List String, rerank cands (RerankLLM.ids l)
        = renumber (rerankHead cands l ++ cands.drop RERANK_CANDIDATE_COUNT))
    ∧ (∀ l : List String, (rerankHead cands l).Perm (cands.take RERANK_CANDIDATE_COUNT))
    ∧ (∀ l : List String, rerankHead cands l =
        (pickPhase l (toAssoc (cands.take RERANK_CANDIDATE_COUNT))).1
          ++ (cands.take RERANK_CANDIDATE_COUNT).filter (fun c => decide (c.id ∉ l)))
    ∧ (∀ (l : List String) (i : ℕ) (hi : i < (rerank cands (RerankLLM.ids l)).length),
        ((rerank cands (RerankLLM.ids l)).get ⟨i, hi⟩).rank = i + 1) := by
  refine ⟨?_, rfl, rfl, fun _ => rfl, fun l => (rerankHead_facts cands hnd l).1,
    fun l => (rerankHead_facts cands hnd l).2, ?_⟩
  · intro r
    cases r with
    | fail => exact List.Perm.refl _
    | notList => exact List.Perm.refl _
    | ids l =>
        show ((renumber (rerankHead cands l ++ cands.drop RERANK_CANDIDATE_COUNT)).map Hit.id).Perm
          (cands.map Hit.id)
        unfold renumber
        rw [renumberFrom_map_id, List.map_append]
        have hperm := ((rerankHead_facts cands hnd l).1).map Hit.id
        have happ := hperm.append
          (List.Perm.refl ((cands.drop RERANK_CANDIDATE_COUNT).map Hit.id))
        refine happ.trans ?_
        rw [← List.map_append, List.take_append_drop]
  · intro l i hi
    have h := renumberFrom_rank (rerankHead cands l ++ cands.drop RERANK_CANDIDATE_COUNT) 1 i hi
    exact h.trans (Nat.add_comm 1 i)

/-- Witness for C2 at a concrete candidate list and provider outputs. -/
theorem C2_rerank_witness :
    rerank [witA, witB, witC] RerankLLM.fail = [witA, witB, witC]
    ∧ ((rerank [witA, witB, witC] (RerankLLM.ids ["C", "X"])).map Hit.id).Perm
        ([witA, witB, witC].map Hit.id) := by
  have h := C2_rerank [witA, witB, witC] (by decide)
  exact ⟨h.2.1, h.1 (RerankLLM.ids ["C", "X"])⟩

/-- One iteration of the merge loop of `DeepResearchAgent._parallel_search`
(deep_research.py lines 275-280): keep the entry with the strictly greater
`similarity_score`, first writer wins ties; a new id is appended. -/
def mergeStep (seen : List (String × Hit)) (item : Hit) : List (String × Hit) :=
  match getEntry? seen item.id with
  | none => setKey seen item.id item
  | some c =>
      if c.similarity_score < item.similarity_score then setKey seen item.id item else seen

/-- Fold one successful batch into the `seen` dict. -/
def mergeBatch (seen : List (String × Hit)) (items : List Hit) : List (String × Hit) :=
  items.foldl mergeStep seen

/-- The merge-and-deduplicate loop over the gathered task outcomes
(deep_research.py lines 270-280): an exceptional outcome is logged and
skipped, a successful one is folded in. -/
def mergeAll (batches : List (Except Unit (List Hit))) : List (String × Hit) :=
  batches.foldl
    (fun seen b => match b with
      | Except.error _ => seen
      | Except.ok items => mergeBatch seen items) []

/-- All hits of the successful batches, in order. -/
def okHits (batches : List (Except Unit (List Hit))) : List Hit :=
  batches.foldr
    (fun b acc => match b with
      | Except.ok l => l ++ acc
      | Except.error _ => acc) []

/-- `sorted(seen.values(), key=..., reverse=True)` (deep_research.py line 283). -/
def parallelMergeSorted (batches : List (Except Unit (List Hit))) : List Hit :=
  ((mergeAll batches).map Prod.snd).mergeSort
    (fun a b => decide (b.similarity_score ≤ a.similarity_score))

/-- `DeepResearchAgent._parallel_search` output: merged, sorted descending,
truncated to `DEEP_RESEARCH_MAX_CONTEXT_ITEMS` (deep_research.py line 284). -/
def parallel_search_merge (batches : List (Except Unit (List Hit))) : List Hit :=
  (parallelMergeSorted batches).take DEEP_RESEARCH_MAX_CONTEXT_ITEMS

/-- The candidate list handed to `_synthesize`:
`merged_results[:DEEP_RESEARCH_MAX_CONTEXT_ITEMS]` (deep_research.py line 139). -/
def run_synth_input (merged : List Hit) : List Hit :=
  merged.take DEEP_RESEARCH_MAX_CONTEXT_ITEMS

/-- The caller-facing result list: `merged_results[:10]` (deep_research.py
line 145). -/
def run_results_field (merged : List Hit) : List Hit :=
  merged.take 10

/-- Fold keeping the entry with the strictly greater score (first wins ties),
the order-theoretic content of the merge loop. -/
def keepMax : Option Hit → List Hit → Option Hit
  | o, [] => o
  | none, h :: t => keepMax (some h) t
  | some c, h :: t =>
      keepMax (some (if c.similarity_score < h.similarity_score then h else c)) t

lemma keepMax_spec :
    ∀ (l : List Hit) (x y : Hit), keepMax (some x) l = some y →
      (y = x ∨ y ∈ l) ∧ x.similarity_score ≤ y.similarity_score
        ∧ ∀ h ∈ l, h.similarity_score ≤ y.similarity_score := by
  intro l
  induction l with
  | nil =>
      intro x y h
      simp only [keepMax] at h
      injection h with h
      subst h
      exact ⟨Or.inl rfl, le_refl _, by simp⟩
  | cons h t ih =>
      intro x y hk
      simp only [keepMax] at hk
      obtain ⟨hmem, hle, hall⟩ := ih _ y hk
      by_cases hc : x.similarity_score < h.similarity_score
      · rw [if_pos hc] at hmem hle
        refine ⟨?_, le_trans (le_of_lt hc) hle, ?_⟩
        · rcases hmem with he | he
          · exact Or.inr (he ▸ List.mem_cons_self h t)
          · exact Or.inr (List.mem_cons_of_mem h he)
        · intro g hg
          rcases List.mem_cons.mp hg with hge | hgt
          · exact hge ▸ hle
          · exact hall g hgt
      · rw [if_neg hc] at hmem hle
        refine ⟨?_, hle, ?_⟩
        · rcases hmem with he | he
          · exact Or.inl he
          · exact Or.inr (List.mem_cons_of_mem h he)
        · intro g hg
          rcases List.mem_cons.mp hg with hge | hgt
          · exact hge ▸ (le_trans (le_of_not_lt hc) hle)
          · exact hall g hgt

lemma keepMax_append :
    ∀ (l₁ l₂ : List Hit) (o : Option Hit),
      keepMax o (l₁ ++ l₂) = keepMax (keepMax o l₁) l₂ := by
  intro l₁
  induction l₁ with
  | nil => intro l₂ o; cases o <;> rfl
  | cons h t ih =>
      intro l₂ o
      cases o with
      | none => simp only [List.cons_append, keepMax]; exact ih l₂ (some h)
      | some c => simp only [List.cons_append, keepMax]; exact ih l₂ _

lemma mergeBatch_getEntry :
    ∀ (items : List Hit) (seen : List (String × Hit)) (d : String),
      getEntry? (mergeBatch seen items) d
        = keepMax (getEntry? seen d) (items.filter (fun h => decide (h.id = d))) := by
  intro items
  induction items with
  | nil => intro seen d; cases hg : getEntry? seen d <;> simp [mergeBatch, keepMax, hg]
  | cons h t ih =>
      intro seen d
      have hstep : mergeBatch seen (h :: t) = mergeBatch (mergeStep seen h) t := rfl
      rw [hstep, ih]
      by_cases hd : h.id = d
      · subst hd
        rw [List.filter_cons]
        simp only [decide_eq_true_eq, eq_self_iff_true, if_true]
        cases hg : getEntry? seen h.id with
        | none =>
            have hms : getEntry? (mergeStep seen h) h.id = some h := by
              simp [mergeStep, hg, getEntry?_setKey]
            rw [hms]
            rfl
        | some c =>
            by_cases hlt : c.similarity_score < h.similarity_score
            · have hms : getEntry? (mergeStep seen h) h.id = some h := by
                simp [mergeStep, hg, hlt, getEntry?_setKey]
              rw [hms]
              simp only [keepMax, if_pos hlt]
            · have hms : getEntry? (mergeStep seen h) h.id = some c := by
                simp [mergeStep, hg, hlt]
              rw [hms]
              simp only [keepMax, if_neg hlt]
      · have hfd : (h :: t).filter (fun g => decide (g.id = d))
            = t.filter (fun g => decide (g.id = d)) := by
          rw [List.filter_cons]
          simp [hd]
        have hdd : ¬ d = h.id := fun he => hd he.symm
        have hst : getEntry? (mergeStep seen h) d = getEntry? seen d := by
          cases hg : getEntry? seen h.id with
          | none =>
              have hms : mergeStep seen h = setKey seen h.id h := by simp [mergeStep, hg]
              rw [hms, getEntry?_setKey]
              simp [hdd]
          | some c =>
              by_cases hlt : c.similarity_score < h.similarity_score
              · have hms : mergeStep seen h = setKey seen h.id h := by
                  simp [mergeStep, hg, hlt]
                rw [hms, getEntry?_setKey]
                simp [hdd]
              · have hms : mergeStep seen h = seen := by simp [mergeStep, hg, hlt]
                rw [hms]
        rw [hfd, hst]

lemma mergeAll_fold_getEntry :
    ∀ (batches : List (Except Unit (List Hit))) (seen : List (String × Hit)) (d : String),
      getEntry? (batches.foldl
        (fun seen b => match b with
          | Except.error _ => seen
          | Except.ok items => mergeBatch seen items) seen) d
        = keepMax (getEntry? seen d) ((okHits batches).filter (fun h => decide (h.id = d))) := by
  intro batches
  induction batches with
  | nil => intro seen d; cases hg : getEntry? seen d <;> simp [okHits, keepMax, hg]
  | cons b t ih =>
      intro seen d
      cases b with
      | error e =>
          simp only [List.foldl_cons]
          rw [ih]
          rfl
      | ok items =>
          simp only [List.foldl_cons]
          rw [ih, mergeBatch_getEntry]
          have hok : okHits (Except.ok items :: t) = items ++ okHits t := rfl
          rw [hok, List.filter_append, keepMax_append]

lemma mergeAll_getEntry (batches : List (Except Unit (List Hit))) (d : String) :
    getEntry? (mergeAll batches) d
      = keepMax none ((okHits batches).filter (fun h => decide (h.id = d))) := by
  unfold mergeAll
  rw [mergeAll_fold_getEntry]
  rfl

lemma parallelMergeSorted_pairwise (batches : List (Except Unit (List Hit))) :
    (parallelMergeSorted batches).Pairwise
      (fun a b => b.similarity_score ≤ a.similarity_score) := by
  unfold parallelMergeSorted
  have hpw : List.Pairwise
      (fun a b => (fun a b : Hit => decide (b.similarity_score ≤ a.similarity_score)) a b = true)
      (((mergeAll batches).map Prod.snd).mergeSort
        (fun a b => decide (b.similarity_score ≤ a.similarity_score))) :=
    List.sorted_mergeSort
      (by intro a b c hab hbc
          simp only [decide_eq_true_eq] at hab hbc ⊢
          exact le_trans hbc hab)
      (by intro a b
          simpa using le_total b.similarity_score a.similarity_score)
      _
  exact hpw.imp (fun hab => by simpa using hab)

/-- C3: when the fan-out orchestrator merges search-result batches, the
merged entry for a document id is one of the hits carrying that id across
the successful batches and its score is an upper bound of all of them — the
maximum seen, never a sum — and the merged list is sorted by score
descending. -/
theorem C3_merge_keeps_max (batches : List (Except Unit (List Hit))) (d : String) (c : Hit)
    (hc : getEntry? (mergeAll batches) d = some c) :
    c ∈ (okHits batches).filter (fun h => decide (h.id = d))
    ∧ (∀ h ∈ (okHits batches).filter (fun h => decide (h.id = d)),
        h.similarity_score ≤ c.similarity_score)
    ∧ (parallelMergeSorted batches).Pairwise
        (fun a b => b.similarity_score ≤ a.similarity_score) := by
  rw [mergeAll_getEntry] at hc
  have hspec : c ∈ (okHits batches).filter (fun h => decide (h.id = d))
      ∧ ∀ h ∈ (okHits batches).filter (fun h => decide (h.id = d)),
          h.similarity_score ≤ c.similarity_score := by
    cases hl : (okHits batches).filter (fun h => decide (h.id = d)) with
    | nil => rw [hl] at hc; simp [keepMax] at hc
    | cons x xs =>
        rw [hl] at hc
        have hstep : keepMax (some x) xs = some c := hc
        obtain ⟨hmem, hxle, hall⟩ := keepMax_spec xs x c hstep
        refine ⟨?_, ?_⟩
        · rcases hmem with he | he
          · exact he ▸ List.mem_cons_self x xs
          · exact List.mem_cons_of_mem x he
        · intro h hh
          rcases List.mem_cons.mp hh with he | ht
          · exact he ▸ hxle
          · exact hall h ht
  exact ⟨hspec.1, hspec.2, parallelMergeSorted_pairwise batches⟩

/-- Fixture hit with id D and score 0.4 (first batch). -/
def witD1 : Hit := { id := "D", similarity_score := 4/10, title := "d1", content_preview := "p1", source_type := "KB", rank := 1 }

/-- Fixture hit with id D and score 0.9 (second batch). -/
def witD2 : Hit := { id := "D", similarity_score := 9/10, title := "d2", content_preview := "p2", source_type := "KB", rank := 1 }

/-- Fixture hit with id D and score 0.2 (third batch). -/
def witD3 : Hit := { id := "D", similarity_score := 2/10, title := "d3", content_preview := "p3", source_type := "KB", rank := 1 }

/-- Witness for C3: the same id with scores 0.4, 0.9, 0.2 in three batches
merges to the 0.9 entry. -/
theorem C3_merge_keeps_max_witness :
    getEntry? (mergeAll [Except.ok [witD1], Except.ok [witD2], Except.ok [witD3]]) "D"
      = some witD2
    ∧ witD2.similarity_score = 9/10
    ∧ (∀ h ∈ (okHits [Except.ok [witD1], Except.ok [witD2], Except.ok [witD3]]).filter
        (fun h => decide (h.id = "D")), h.similarity_score ≤ witD2.similarity_score) := by
  have hentry : getEntry? (mergeAll [Except.ok [witD1], Except.ok [witD2], Except.ok [witD3]]) "D"
      = some witD2 := by
    rw [mergeAll_getEntry]
    norm_num [okHits, keepMax, witD1, witD2, witD3]
  exact ⟨hentry, rfl,
    (C3_merge_keeps_max [Except.ok [witD1], Except.ok [witD2], Except.ok [witD3]] "D" witD2
      hentry).2.1⟩

lemma merge_fold_set :
    ∀ (l : List (Except Unit (List Hit))) (i : ℕ) (e : Unit) (seen : List (String × Hit)),
      (l.set i (Except.error e)).foldl
        (fun seen b => match b with
          | Except.error _ => seen
          | Except.ok items => mergeBatch seen items) seen
      = (l.set i (Except.ok [])).foldl
        (fun seen b => match b with
          | Except.error _ => seen
          | Except.ok items => mergeBatch seen items) seen := by
  intro l
  induction l with
  | nil => intro i e seen; rfl
  | cons b t ih =>
      intro i e seen
      cases i with
      | zero => rfl
      | succ m =>
          simp only [List.set_cons_succ, List.foldl_cons]
          exact ih m e _

lemma mergeAll_set (batches : List (Except Unit (List Hit))) (i : ℕ) (e : Unit) :
    mergeAll (batches.set i (Except.error e)) = mergeAll (batches.set i (Except.ok [])) :=
  merge_fold_set batches i e []

/-- C4: in the fan-out orchestrator a failed task contributes exactly an
empty result set — replacing any task outcome by a failure yields the same
merged output as replacing it by an empty success, so the remaining tasks'
results still merge and no exception reaches the caller (the gathered
outcomes are values); the set passed to synthesis is truncated to at most
`DEEP_RESEARCH_MAX_CONTEXT_ITEMS` (15) and the caller-facing list to at most
10, by two independent truncations of the same merged, sorted list. -/
theorem C4_fanout_isolation (batches : List (Except Unit (List Hit))) :
    (∀ (i : ℕ) (e : Unit),
        parallel_search_merge (batches.set i (Except.error e))
          = parallel_search_merge (batches.set i (Except.ok [])))
    ∧ run_synth_input (parallel_search_merge batches)
        = (parallel_search_merge batches).take DEEP_RESEARCH_MAX_CONTEXT_ITEMS
    ∧ run_results_field (parallel_search_merge batches)
        = (parallel_search_merge batches).take 10
    ∧ (run_synth_input (parallel_search_merge batches)).length ≤ DEEP_RESEARCH_MAX_CONTEXT_ITEMS
    ∧ (run_results_field (parallel_search_merge batches)).length ≤ 10 := by
  refine ⟨?_, rfl, rfl, ?_, ?_⟩
  · intro i e
    unfold parallel_search_merge parallelMergeSorted
    rw [mergeAll_set]
  · unfold run_synth_input
    rw [List.length_take]
    exact min_le_left _ _
  · unfold run_results_field
    rw [List.length_take]
    exact min_le_left _ _

/-- An entry of the parsed report's `evidence` array, with the keys the code
reads; a missing `source_id` key is `none` (Python `e.get("source_id")`). -/
structure EvidenceItem where
  source_id : Option String
  source_type : String
  title : String
  relevance : String
  content_preview : String
deriving DecidableEq, Repr

/-- An entry of the parsed report's `related_resources` array. -/
structure RelatedItem where
  source_id : Option String
  source_type : String
  title : String
  why_relevant : String
deriving DecidableEq, Repr

/-- A research report as handled by `_synthesize`: the parsed JSON object may
or may not carry the `evidence` and `related_resources` keys (the code checks
`if "evidence" in report`). -/
structure Report where
  summary : String
  evidence : Option (List EvidenceItem)
  related_resources : Option (List RelatedItem)
deriving DecidableEq, Repr

/-- Outcome of the synthesis Generation-Provider interaction after fence
stripping and `json.loads` (deep_research.py lines 304-314): `fail` covers a
transport error and any exception raised while parsing or while filtering a
malformed entry (the whole block is in one try/except), `parsed` a JSON
object. -/
inductive SynthLLM where
  | fail
  | parsed (rep : Report)

/-- The fixed fallback summary notice (deep_research.py line 331). -/
def FALLBACK_SUMMARY : String :=
  "Synthesis failed. Here are the raw search results ranked by relevance."

/-- The deterministic fallback report built from the top 10 candidates
(deep_research.py lines 330-343). -/
def fallbackReport (results : List Hit) : Report :=
  { summary := FALLBACK_SUMMARY,
    evidence := some ((results.take 10).map (fun r =>
      { source_id := some r.id, source_type := r.source_type, title := r.title,
        relevance := "Similarity score: " ++ fmt3 r.similarity_score,
        content_preview := r.content_preview.take 200 })),
    related_resources := some [] }

/-- `valid_source_ids` (deep_research.py lines 289-292). -/
def validSourceIds (results : List Hit) : List String := results.map Hit.id

/-- Python `e.get("source_id") in valid_source_ids` (deep_research.py line 319). -/
def keepEvidence (valid : List String) (e : EvidenceItem) : Bool :=
  match e.source_id with
  | some s => valid.contains s
  | none => false

/-- Python `r.get("source_id") in valid_source_ids` (deep_research.py line 323). -/
def keepRelated (valid : List String) (r : RelatedItem) : Bool :=
  match r.source_id with
  | some s => valid.contains s
  | none => false

/-- `DeepResearchAgent._synthesize` after the provider interaction
(deep_research.py lines 304-343): on success filter the evidence and
related-resources lists (when present) down to recognized source ids; on any
failure return the deterministic fallback report. -/
def synthesize (results : List Hit) (o : SynthLLM) : Report :=
  match o with
  | .fail => fallbackReport results
  | .parsed rep =>
      { rep with
        evidence := rep.evidence.map (fun l => l.filter (keepEvidence (validSourceIds results))),
        related_resources :=
          rep.related_resources.map (fun l => l.filter (keepRelated (validSourceIds results))) }

/-- C5: every source id in the returned report's evidence and related
resources is an id of the candidate set (unrecognized entries are dropped by
a filter, silently; no id is fabricated), and on provider failure or
unparsable output the result is the deterministic fallback report built from
the top 10 candidates, with the fixed summary notice and the literal
formatted similarity score as each evidence item's relevance field. -/
theorem C5_synthesis_sources (results : List Hit) (o : SynthLLM) :
    (∀ l : List EvidenceItem, (synthesize results o).evidence = some l →
        ∀ e ∈ l, ∀ s : String, e.source_id = some s → s ∈ results.map Hit.id)
    ∧ (∀ l : List RelatedItem, (synthesize results o).related_resources = some l →
        ∀ e ∈ l, ∀ s : String, e.source_id = some s → s ∈ results.map Hit.id)
    ∧ synthesize results SynthLLM.fail = fallbackReport results
    ∧ (fallbackReport results).summary = FALLBACK_SUMMARY
    ∧ (fallbackReport results).evidence = some ((results.take 10).map (fun r =>
        { source_id := some r.id, source_type := r.source_type, title := r.title,
          relevance := "Similarity score: " ++ fmt3 r.similarity_score,
          content_preview := r.content_preview.take 200 }))
    ∧ (∀ rep : Report, (synthesize results (SynthLLM.parsed rep)).evidence
        = rep.evidence.map (fun l => l.filter (keepEvidence (validSourceIds results)))) := by
  refine ⟨?_, ?_, rfl, rfl, rfl, fun rep => rfl⟩
  · intro l hl e he s hs
    cases o with
    | fail =>
        simp only [synthesize, fallbackReport] at hl
        injection hl with hl
        rw [← hl] at he
        rw [List.mem_map] at he
        obtain ⟨r, hr, hre⟩ := he
        rw [← hre] at hs
        injection hs with hs
        rw [← hs]
        exact List.mem_map_of_mem Hit.id (List.mem_of_mem_take hr)
    | parsed rep =>
        simp only [synthesize] at hl
        cases hre : rep.evidence with
        | none => rw [hre] at hl; simp at hl
        | some l0 =>
            rw [hre] at hl
            have hl2 : some (l0.filter (keepEvidence (validSourceIds results))) = some l := hl
            injection hl2 with hl2
            rw [← hl2] at he
            have hkeep := List.of_mem_filter he
            unfold keepEvidence at hkeep
            rw [hs] at hkeep
            unfold validSourceIds at hkeep
            exact by simpa using hkeep
  · intro l hl e he s hs
    cases o with
    | fail =>
        simp only [synthesize, fallbackReport] at hl
        injection hl with hl
        rw [← hl] at he
        simp at he
    | parsed rep =>
        simp only [synthesize] at hl
        cases hre : rep.related_resources with
        | none => rw [hre] at hl; simp at hl
        | some l0 =>
            rw [hre] at hl
            have hl2 : some (l0.filter (keepRelated (validSourceIds results))) = some l := hl
            injection hl2 with hl2
            rw [← hl2] at he
            have hkeep := List.of_mem_filter he
            unfold keepRelated at hkeep
            rw [hs] at hkeep
            unfold validSourceIds at hkeep
            exact by simpa using hkeep

/-- Fixture evidence item citing a real candidate id. -/
def witEvGood : EvidenceItem :=
  { source_id := some "A", source_type := "KB", title := "t", relevance := "r", content_preview := "p" }

/-- Fixture evidence item citing an unknown id. -/
def witEvBad : EvidenceItem :=
  { source_id := some "Z", source_type := "KB", title := "t", relevance := "r", content_preview := "p" }

/-- Fixture parsed report with one recognized and one fabricated source id. -/
def witReport : Report :=
  { summary := "s", evidence := some [witEvGood, witEvBad], related_resources := none }

/-- Witness for C5: the fabricated id is dropped and the surviving id is in
the candidate set. -/
theorem C5_synthesis_sources_witness :
    (synthesize [witA] (SynthLLM.parsed witReport)).evidence = some [witEvGood]
    ∧ ∀ s : String, witEvGood.source_id = some s → s ∈ [witA].map Hit.id := by
  have heq : (synthesize [witA] (SynthLLM.parsed witReport)).evidence = some [witEvGood] := by
    rfl
  exact ⟨heq, fun s hs =>
    (C5_synthesis_sources [witA] (SynthLLM.parsed witReport)).1 [witEvGood] heq witEvGood
      (List.mem_singleton.mpr rfl) s hs⟩

/-- Strip trailing zero characters. -/
def stripZeros (s : List Char) : List Char :=
  (s.reverse.dropWhile (fun c => c = '0')).reverse

/-- Digits of `n` left-padded with zeros to length `k`. -/
def padDigits (n k : ℕ) : String :=
  String.mk (List.replicate (k - (toString n).length) '0') ++ toString n

/-- Python `str` of a float, idealized over rationals: decimal expansion with
trailing zeros stripped (exact for the terminating decimals used here, such
as the 0.85 gap threshold). -/
def pyFloatStr (q : ℚ) : String :=
  (if q < 0 then "-" else "") ++ toString (⌊|q|⌋).toNat ++ "."
    ++ (if stripZeros (padDigits (⌊(|q| - (⌊|q|⌋ : ℚ)) * 10^17⌋).toNat 17).toList = []
        then "0"
        else String.mk (stripZeros (padDigits (⌊(|q| - (⌊|q|⌋ : ℚ)) * 10^17⌋).toNat 17).toList))

/-- The parsed JSON object returned by the gap-confirmation provider call,
with the keys the code reads (`gap_detected` is read with `[...]`, the other
two with `.get`). -/
structure GapParsed where
  gap_detected : Bool
  gap_description : Option String
  suggested_title : Option String
deriving DecidableEq, Repr

/-- Outcome of the gap-confirmation Generation-Provider interaction
(gap_detection.py lines 148-169): `fail` covers transport and parse errors. -/
inductive GapLLM where
  | fail
  | parsed (g : GapParsed)

/-- The gap-assessment payload of `GapDetectionAgent.run`. -/
structure GapOut where
  gap_detected : Bool
  gap_description : String
  suggested_title : Option String
  best_match_id : Option String
  best_match_similarity : ℚ
deriving DecidableEq, Repr

/-- `GapDetectionAgent._confirm_gap_with_llm` (gap_detection.py lines
133-169): return the parsed object, or on any failure the mechanical
fallback asserting a gap. -/
def confirm_gap_with_llm (category : String) (thr : ℚ) (o : GapLLM) : GapParsed :=
  match o with
  | .parsed g => g
  | .fail =>
      { gap_detected := true,
        gap_description := some ("No existing KB match above " ++ pyFloatStr thr
          ++ " threshold for " ++ category ++ " issue; LLM confirmation failed."),
        suggested_title := some ("Resolving " ++ category ++ " Issues") }

/-- The below-threshold branch of `GapDetectionAgent.run` (gap_detection.py
lines 99-131); the second component counts Generation-Provider calls (one). -/
def gapBelow (category : String) (best : Option Hit) (thr : ℚ) (o : GapLLM) : GapOut × ℕ :=
  ({ gap_detected := (confirm_gap_with_llm category thr o).gap_detected,
     gap_description := (confirm_gap_with_llm category thr o).gap_description.getD "",
     suggested_title := (confirm_gap_with_llm category thr o).suggested_title,
     best_match_id := best.map Hit.id,
     best_match_similarity := match best with | some b => b.similarity_score | none => 0 }, 1)

/-- The threshold dispatch of `GapDetectionAgent.run` (gap_detection.py lines
79-131); the second component counts Generation-Provider calls. -/
def gapRun (category : String) (best : Option Hit) (thr : ℚ) (o : GapLLM) : GapOut × ℕ :=
  match best with
  | some b =>
      if thr ≤ b.similarity_score then
        ({ gap_detected := false,
           gap_description := "Existing KB article " ++ quoteStr ++ b.title ++ quoteStr
             ++ " (similarity: " ++ fmt3 b.similarity_score ++ ") covers this scenario.",
           suggested_title := none,
           best_match_id := some b.id,
           best_match_similarity := b.similarity_score }, 0)
      else gapBelow category (some b) thr o
  | none => gapBelow category none thr o

/-- C6: whenever the best KB match's similarity is at least the configured
threshold (default 0.85, the bound itself included), the gap evaluator
returns `gap_detected = false`, makes zero Generation-Provider calls, and its
result does not depend on the provider outcome at all — the generation branch
is unreachable. -/
theorem C6_gap_threshold (category : String) (b : Hit) (o : GapLLM)
    (h : KB_GAP_THRESHOLD ≤ b.similarity_score) :
    (gapRun category (some b) KB_GAP_THRESHOLD o).1.gap_detected = false
    ∧ (gapRun category (some b) KB_GAP_THRESHOLD o).2 = 0
    ∧ (∀ o' : GapLLM, gapRun category (some b) KB_GAP_THRESHOLD o
        = gapRun category (some b) KB_GAP_THRESHOLD o') := by
  refine ⟨?_, ?_, ?_⟩
  · simp [gapRun, if_pos h]
  · simp [gapRun, if_pos h]
  · intro o'
    simp [gapRun, if_pos h]

/-- Fixture KB best match whose similarity is exactly the 0.85 threshold. -/
def witK85 : Hit := { id := "K1", similarity_score := 85/100, title := "kb", content_preview := "p", source_type := "KB", rank := 1 }

/-- Witness for C6 at a best match scoring exactly the threshold. -/
theorem C6_gap_threshold_witness :
    (gapRun "Accounting" (some witK85) KB_GAP_THRESHOLD GapLLM.fail).1.gap_detected = false
    ∧ (gapRun "Accounting" (some witK85) KB_GAP_THRESHOLD GapLLM.fail).2 = 0 := by
  have h := C6_gap_threshold "Accounting" witK85 GapLLM.fail
    (by norm_num [KB_GAP_THRESHOLD, witK85])
  exact ⟨h.1, h.2.1⟩

/-- The classification payload of `TriageAgent._classify` (pool, confidence,
reasoning, rewritten search query). -/
structure Classification where
  answer_type : String
  confidence : ℚ
  reasoning : String
  search_query : String
deriving DecidableEq, Repr

/-- The parsed JSON object of a successful classification call, as the code
reads it: each key may be absent; `confidence` may additionally be present
but not convertible by `float(...)` (`some none`), which raises inside the
same try/except. -/
structure ParsedClassification where
  answer_type : Option String
  confidence : Option (Option ℚ)
  reasoning : Option String
  search_query : Option String
deriving DecidableEq, Repr

/-- Outcome of the classification Generation-Provider interaction
(triage.py lines 194-223): `fail` covers transport errors, JSON parse
errors and any other exception raised inside the try block. -/
inductive ClassifyLLM where
  | fail
  | parsed (p : ParsedClassification)

/-- The 3-value pool enum checked at triage.py line 207. -/
def VALID_ANSWER_TYPES : List String := ["SCRIPT", "KB", "TICKET_RESOLUTION"]

/-- The except-branch fallback classification (triage.py lines 216-223). -/
def fallbackClassification (question : String) : Classification :=
  { answer_type := "KB", confidence := 3/10,
    reasoning := "Classification failed — falling back to KB search.",
    search_query := question }

/-- The pool validation of triage.py lines 207-209: a present, valid
`answer_type` survives; anything else is coerced. -/
def validatedAnswerType (p : ParsedClassification) : Option String :=
  match p.answer_type with
  | some a => if VALID_ANSWER_TYPES.contains a then some a else none
  | none => none

/-- `TriageAgent._classify` after the provider interaction (triage.py lines
194-223): validate the pool (invalid or missing coerces to KB with
confidence 0.5), convert the confidence with `float` (default 0.5; an
unconvertible value raises and lands in the fallback), and never raise to
the caller. -/
def classify (question : String) (o : ClassifyLLM) : Classification :=
  match o with
  | .fail => fallbackClassification question
  | .parsed p =>
      match validatedAnswerType p with
      | some a =>
          match p.confidence with
          | none =>
              { answer_type := a, confidence := 1/2,
                reasoning := p.reasoning.getD "", search_query := p.search_query.getD question }
          | some (some c) =>
              { answer_type := a, confidence := c,
                reasoning := p.reasoning.getD "", search_query := p.search_query.getD question }
          | some none => fallbackClassification question
      | none =>
          { answer_type := "KB", confidence := 1/2,
            reasoning := p.reasoning.getD "", search_query := p.search_query.getD question }

/-- Counterexample for C7 as frozen: the fallback's reasoning text is the
code's literal "Classification failed — falling back to KB search.", not the
claimed literal "classification failed". -/
theorem C7_classify_fallback_counterexample :
    ¬ ((classify "q" ClassifyLLM.fail).reasoning = "classification failed") := by
  decide

/-- C7 (amended): on any failure of the Generation Provider or of parsing —
including a parsed object whose confidence value `float(...)` rejects — the
classifier returns exactly
`{pool: KB, confidence: 0.3, reasoning: "Classification failed — falling
back to KB search.", rewritten_query: original question}`, and being a total
function it never raises. -/
theorem C7_classify_fallback_amended :
    (∀ q : String, classify q ClassifyLLM.fail = fallbackClassification q)
    ∧ (∀ q : String, fallbackClassification q
        = { answer_type := "KB", confidence := 3/10,
            reasoning := "Classification failed — falling back to KB search.",
            search_query := q })
    ∧ (∀ (q : String) (p : ParsedClassification), p.confidence = some none →
        (validatedAnswerType p).isSome = true →
        classify q (ClassifyLLM.parsed p) = fallbackClassification q) := by
  refine ⟨fun q => rfl, fun q => rfl, ?_⟩
  intro q p hconf hval
  obtain ⟨a, hva⟩ := Option.isSome_iff_exists.mp hval
  have hred : classify q (ClassifyLLM.parsed p)
      = match validatedAnswerType p with
        | some a =>
            match p.confidence with
            | none => { answer_type := a, confidence := 1/2, reasoning := p.reasoning.getD "", search_query := p.search_query.getD q }
            | some (some c) => { answer_type := a, confidence := c, reasoning := p.reasoning.getD "", search_query := p.search_query.getD q }
            | some none => fallbackClassification q
        | none => { answer_type := "KB", confidence := 1/2, reasoning := p.reasoning.getD "", search_query := p.search_query.getD q } := rfl
  rw [hred, hva, hconf]

lemma validatedAnswerType_mem {p : ParsedClassification} {a : String}
    (h : validatedAnswerType p = some a) : a ∈ VALID_ANSWER_TYPES := by
  unfold validatedAnswerType at h
  cases hat : p.answer_type with
  | none => rw [hat] at h; simp at h
  | some b =>
      rw [hat] at h
      have h2 : (if VALID_ANSWER_TYPES.contains b then some b else none) = some a := h
      by_cases hb : VALID_ANSWER_TYPES.contains b
      · rw [if_pos hb] at h2
        injection h2 with h2
        subst h2
        simpa using hb
      · rw [if_neg hb] at h2
        simp at h2

/-- The provider-supplied confidence value actually read by `float(...)`,
when there is one. -/
def providerConfidence : ClassifyLLM → Option ℚ
  | .fail => none
  | .parsed p =>
      match p.confidence with
      | some (some c) => some c
      | _ => none

/-- Counterexample for C8 as frozen: a well-formed provider response with a
valid pool and confidence 2.0 passes straight through — the code never clamps
confidence, so the result lies outside [0, 1]. -/
theorem C8_classification_counterexample :
    (classify "q" (ClassifyLLM.parsed
      { answer_type := some "KB", confidence := some (some 2),
        reasoning := some "r", search_query := some "sq" })).confidence = 2
    ∧ ¬ ((classify "q" (ClassifyLLM.parsed
      { answer_type := some "KB", confidence := some (some 2),
        reasoning := some "r", search_query := some "sq" })).confidence ≤ 1) := by
  have h : (classify "q" (ClassifyLLM.parsed
      { answer_type := some "KB", confidence := some (some 2),
        reasoning := some "r", search_query := some "sq" })).confidence = 2 := rfl
  exact ⟨h, by rw [h]; norm_num⟩

/-- C8 (amended): every classification outcome — success, coercion or
fallback — has pool in {SCRIPT, KB, TICKET_RESOLUTION}; confidence lies in
[0, 1] whenever the provider-supplied confidence value that is read lies in
[0, 1] (the fallback 0.3 and the coercion 0.5 always do) — the code does not
clamp an out-of-range provider confidence. -/
theorem C8_classification_invariants_amended :
    (∀ (q : String) (o : ClassifyLLM), (classify q o).answer_type ∈ VALID_ANSWER_TYPES)
    ∧ (∀ (q : String) (o : ClassifyLLM),
        (∀ c : ℚ, providerConfidence o = some c → 0 ≤ c ∧ c ≤ 1) →
        0 ≤ (classify q o).confidence ∧ (classify q o).confidence ≤ 1) := by
  constructor
  · intro q o
    cases o with
    | fail =>
        show ("KB" : String) ∈ VALID_ANSWER_TYPES
        decide
    | parsed p =>
        have hred : classify q (ClassifyLLM.parsed p)
            = match validatedAnswerType p with
              | some a =>
                  match p.confidence with
                  | none => { answer_type := a, confidence := 1/2, reasoning := p.reasoning.getD "", search_query := p.search_query.getD q }
                  | some (some c) => { answer_type := a, confidence := c, reasoning := p.reasoning.getD "", search_query := p.search_query.getD q }
                  | some none => fallbackClassification q
              | none => { answer_type := "KB", confidence := 1/2, reasoning := p.reasoning.getD "", search_query := p.search_query.getD q } := rfl
        rw [hred]
        cases hva : validatedAnswerType p with
        | none =>
            show ("KB" : String) ∈ VALID_ANSWER_TYPES
            decide
        | some a =>
            cases hcf : p.confidence with
            | none => exact validatedAnswerType_mem hva
            | some oc =>
                cases oc with
                | none =>
                    show ("KB" : String) ∈ VALID_ANSWER_TYPES
                    decide
                | some c => exact validatedAnswerType_mem hva
  · intro q o hc
    cases o with
    | fail => constructor <;> norm_num [classify, fallbackClassification]
    | parsed p =>
        have hred : classify q (ClassifyLLM.parsed p)
            = match validatedAnswerType p with
              | some a =>
                  match p.confidence with
                  | none => { answer_type := a, confidence := 1/2, reasoning := p.reasoning.getD "", search_query := p.search_query.getD q }
                  | some (some c) => { answer_type := a, confidence := c, reasoning := p.reasoning.getD "", search_query := p.search_query.getD q }
                  | some none => fallbackClassification q
              | none => { answer_type := "KB", confidence := 1/2, reasoning := p.reasoning.getD "", search_query := p.search_query.getD q } := rfl
        rw [hred]
        cases hva : validatedAnswerType p with
        | none => constructor <;> norm_num
        | some a =>
            cases hcf : p.confidence with
            | none => constructor <;> norm_num
            | some oc =>
                cases oc with
                | none => constructor <;> norm_num [fallbackClassification]
                | some c =>
                    have : providerConfidence (ClassifyLLM.parsed p) = some c := by
                      show (match p.confidence with
                        | some (some c) => some c
                        | _ => none) = some c
                      rw [hcf]
                    exact hc c this

/-- Witness for C8 (amended) at a concrete in-range provider response. -/
theorem C8_classification_invariants_witness :
    (classify "q" (ClassifyLLM.parsed
      { answer_type := some "SCRIPT", confidence := some (some (9/10)),
        reasoning := some "r", search_query := some "sq" })).answer_type ∈ VALID_ANSWER_TYPES
    ∧ 0 ≤ (classify "q" (ClassifyLLM.parsed
      { answer_type := some "SCRIPT", confidence := some (some (9/10)),
        reasoning := some "r", search_query := some "sq" })).confidence := by
  refine ⟨(C8_classification_invariants_amended).1 "q" _, ?_⟩
  refine ((C8_classification_invariants_amended).2 "q" (ClassifyLLM.parsed
      { answer_type := some "SCRIPT", confidence := some (some (9/10)),
        reasoning := some "r", search_query := some "sq" }) ?_).1
  intro c hcp
  have hc : c = 9/10 := by
    have : providerConfidence (ClassifyLLM.parsed
      { answer_type := some "SCRIPT", confidence := some (some (9/10)),
        reasoning := some "r", search_query := some "sq" }) = some (9/10) := rfl
    rw [this] at hcp
    injection hcp with hcp
    exact hcp.symm
  rw [hc]
  norm_num

/-- Witness for C7 (amended): the failure outcome and a parsed object whose
confidence cannot be converted both yield the exact fallback classification. -/
theorem C7_classify_fallback_witness :
    classify "q" (ClassifyLLM.parsed
      { answer_type := some "KB", confidence := some none,
        reasoning := none, search_query := none }) = fallbackClassification "q"
    ∧ classify "orig" ClassifyLLM.fail = fallbackClassification "orig" :=
  ⟨C7_classify_fallback_amended.2.2 "q" _ rfl (by decide),
   C7_classify_fallback_amended.1 "orig"⟩

/-- One parsed entry of the decomposition JSON array, with the keys the code
reads via `.get` (deep_research.py lines 196-206). -/
structure DecompItem where
  query : Option String
  pool : Option String
  aspect : Option String
deriving DecidableEq, Repr

/-- Outcome of the decomposition Generation-Provider interaction
(deep_research.py lines 179-211): `fail` covers transport errors, JSON parse
errors, a non-list JSON value, and a list containing a non-object element
(reading it raises inside the same try block); `parsed` is a JSON array of
objects. -/
inductive DecompLLM where
  | fail
  | parsed (items : List DecompItem)

/-- A validated sub-query (query text, target pool, aspect label). -/
structure SubQuery where
  query : String
  pool : String
  aspect : String
deriving DecidableEq, Repr

/-- The keys of `_POOL_TO_ANSWER_TYPE` (deep_research.py lines 75-79). -/
def POOL_KEYS : List String := ["KB", "SCRIPT", "TICKET_RESOLUTION"]

/-- Pool validation of deep_research.py lines 197-199: an unknown pool label
is coerced to KB. -/
def coercePool (p : String) : String :=
  if POOL_KEYS.contains p then p else "KB"

/-- `DeepResearchAgent._decompose` after the provider interaction
(deep_research.py lines 188-211): an empty or invalid parse raises and falls
back to the single KB sub-query built from the original question; otherwise
the list is clamped to `DEEP_RESEARCH_MAX_SUB_QUERIES` and each entry's pool
validated. -/
def decompose (question : String) (o : DecompLLM) : List SubQuery :=
  match o with
  | .fail => [{ query := question, pool := "KB", aspect := "general search" }]
  | .parsed items =>
      if items.isEmpty then [{ query := question, pool := "KB", aspect := "general search" }]
      else (items.take DEEP_RESEARCH_MAX_SUB_QUERIES).map (fun it =>
        { query := it.query.getD question, pool := coercePool (it.pool.getD "KB"), aspect := it.aspect.getD "" })

/-- Counterexample for C9 as frozen: a well-formed provider response with a
single sub-query is returned as one sub-query — the code enforces no lower
bound of 2, and this is a success, not the failure fallback. -/
theorem C9_decompose_counterexample :
    (decompose "q" (DecompLLM.parsed
      [{ query := some "s", pool := some "KB", aspect := some "a" }])).length = 1
    ∧ ¬ (2 ≤ (decompose "q" (DecompLLM.parsed
      [{ query := some "s", pool := some "KB", aspect := some "a" }])).length)
    ∧ decompose "q" (DecompLLM.parsed
      [{ query := some "s", pool := some "KB", aspect := some "a" }])
      ≠ [{ query := "q", pool := "KB", aspect := "general search" }] := by
  refine ⟨rfl, ?_, ?_⟩
  · have h : (decompose "q" (DecompLLM.parsed
        [{ query := some "s", pool := some "KB", aspect := some "a" }])).length = 1 := rfl
    rw [h]
    norm_num
  · decide

/-- C9 (amended): decomposition returns between 1 and 4 sub-queries — the
2-to-4 range is only requested in the prompt, the code enforces only the
upper clamp at `DEEP_RESEARCH_MAX_SUB_QUERIES` (4) — each with target pool in
{KB, SCRIPT, TICKET_RESOLUTION} (invalid labels coerced to KB), and on total
failure exactly one sub-query: the original question targeted at KB. -/
theorem C9_decompose_amended (question : String) (o : DecompLLM) :
    1 ≤ (decompose question o).length
    ∧ (decompose question o).length ≤ DEEP_RESEARCH_MAX_SUB_QUERIES
    ∧ (∀ sq ∈ decompose question o, sq.pool ∈ POOL_KEYS)
    ∧ decompose question DecompLLM.fail
        = [{ query := question, pool := "KB", aspect := "general search" }]
    ∧ (∀ p : String, p ∉ POOL_KEYS → coercePool p = "KB")
    ∧ (∀ p : String, p ∈ POOL_KEYS → coercePool p = p) := by
  have hcp : ∀ p : String, coercePool p ∈ POOL_KEYS := by
    intro p
    unfold coercePool
    by_cases hp : POOL_KEYS.contains p
    · rw [if_pos hp]
      simpa using hp
    · rw [if_neg hp]
      decide
  refine ⟨?_, ?_, ?_, rfl, ?_, ?_⟩
  · cases o with
    | fail => simp [decompose]
    | parsed items =>
        by_cases he : items.isEmpty
        · simp [decompose, he]
        · simp only [decompose, if_neg he, List.length_map, List.length_take]
          have hpos : 0 < items.length := by
            cases items with
            | nil => simp at he
            | cons a t => simp
          have h4 : 0 < DEEP_RESEARCH_MAX_SUB_QUERIES := by decide
          omega
  · cases o with
    | fail =>
        simp only [decompose, List.length_singleton]
        decide
    | parsed items =>
        by_cases he : items.isEmpty
        · simp only [decompose, if_pos he, List.length_singleton]
          decide
        · simp only [decompose, if_neg he, List.length_map, List.length_take]
          omega
  · intro sq hsq
    cases o with
    | fail =>
        simp only [decompose, List.mem_singleton] at hsq
        rw [hsq]
        show ("KB" : String) ∈ POOL_KEYS
        decide
    | parsed items =>
        by_cases he : items.isEmpty
        · simp only [decompose, if_pos he, List.mem_singleton] at hsq
          rw [hsq]
          show ("KB" : String) ∈ POOL_KEYS
          decide
        · simp only [decompose, if_neg he, List.mem_map] at hsq
          obtain ⟨it, hit, hsqe⟩ := hsq
          rw [← hsqe]
          exact hcp (it.pool.getD "KB")
  · intro p hp
    unfold coercePool
    rw [if_neg (by simpa using hp)]
  · intro p hp
    unfold coercePool
    rw [if_pos (by simpa using hp)]

/-- Witness for C9 (amended) at a concrete provider response carrying an
invalid pool label. -/
theorem C9_decompose_amended_witness :
    (∀ sq ∈ decompose "q" (DecompLLM.parsed
        [{ query := some "s1", pool := some "WRONG", aspect := some "a1" },
         { query := some "s2", pool := some "SCRIPT", aspect := some "a2" }]),
      sq.pool ∈ POOL_KEYS)
    ∧ coercePool "WRONG" = "KB"
    ∧ decompose "zz" DecompLLM.fail = [{ query := "zz", pool := "KB", aspect := "general search" }] := by
  have h := C9_decompose_amended "q" (DecompLLM.parsed
    [{ query := some "s1", pool := some "WRONG", aspect := some "a1" },
     { query := some "s2", pool := some "SCRIPT", aspect := some "a2" }])
  exact ⟨h.2.2.1, (C9_decompose_amended "w" DecompLLM.fail).2.2.2.2.1 "WRONG" (by decide),
    (C9_decompose_amended "zz" DecompLLM.fail).2.2.2.1⟩
